import Mathlib

/-!
Shallow embedding of `ohmoracle.py`, a CLI voltage-divider calculator:
resistor-token shorthand parsing, the divider search pipeline
(`generate_r2_list`, `find_approximations`, `closest_resistor`,
`find_closest_match`) and the `error` exit helper.

Python floats are modelled as rationals.  Fallible Python operations are
modelled explicitly: `/` through `pydiv` (ZeroDivisionError on a zero
divisor), `float()` through `pyfloat` (ValueError as `none`), list
indexing of an empty list as IndexError, and the script's own `error()`
helper as a terminating `PyError.errorExit` carrying the printed message.
-/

namespace OhmOracle

/-- Terminating outcomes of the Python program: the script's own `error()`
helper (which prints a message and exits), and unhandled exceptions raised
by the runtime. -/
inductive PyError where
  | errorExit (msg : String)
  | zeroDivisionError
  | valueError
  | indexError
deriving DecidableEq

/-- One entry of the `results` list built by `find_approximations`: the
Python dict with keys r1, r2, vout, error. -/
structure DividerResult where
  r1 : ℚ
  r2 : ℚ
  vout : ℚ
  error : ℚ
deriving DecidableEq

/-- Python float division: raises ZeroDivisionError when the divisor is 0. -/
def pydiv (a b : ℚ) : Except PyError ℚ :=
  if b = 0 then .error .zeroDivisionError else .ok (a / b)

/-- Python `int()` applied to a float: truncation toward zero. -/
def pyint (q : ℚ) : ℤ :=
  if 0 ≤ q then ⌊q⌋ else ⌈q⌉

/-- The body of the loop in `closest_resistor`: skip candidates above
`ohms`, otherwise keep the candidate making `ohms - closest` smallest. -/
def closestStep (ohms closest i : ℚ) : ℚ :=
  if i > ohms then closest
  else if ohms - closest > ohms - i then i else closest

/-- `closest_resistor(resistors, ohms)` from ohmoracle.py: starts from
`closest = 0` and scans the whole candidate list. -/
def closest_resistor (resistors : List ℚ) (ohms : ℚ) : ℚ :=
  resistors.foldl (closestStep ohms) 0

/-- The snap operation performed by the approximator:
`closest_resistor(resistors, int(r2))` (line 121 of ohmoracle.py). -/
def snapToNearest (resistors : List ℚ) (target : ℚ) : ℚ :=
  closest_resistor resistors ((pyint target : ℤ) : ℚ)

/-- Message printed by `generate_r2_list` when vin == vout. -/
def vinEqMsg : String := "Vin and Vout cannot be equal! Try making Vout lower than Vin."

/-- Message printed by `generate_r2_list` when vin < vout. -/
def vinLtMsg : String := "Vout cannot be greater than Vin! Try making Vout lower than Vin."

/-- Loop body of `generate_r2_list`: append `(vin * r1) / (vin - vout)`. -/
def r2_step (vin vout : ℚ) (r2_list : List ℚ) (r1 : ℚ) : Except PyError (List ℚ) :=
  (pydiv (vin * r1) (vin - vout)).map (fun r2 => r2_list ++ [r2])

/-- `generate_r2_list(vin, vout, r1_list)` from ohmoracle.py: rejects
vin == vout and vin < vout via `error()`, then solves the divider formula
for r2 once per candidate. -/
def generate_r2_list (vin vout : ℚ) (r1_list : List ℚ) : Except PyError (List ℚ) :=
  if vin = vout then .error (.errorExit vinEqMsg)
  else if vin < vout then .error (.errorExit vinLtMsg)
  else r1_list.foldlM (r2_step vin vout) []

/-- Body of the inner loop of `find_approximations`: snap r2, compute the
achieved vout and the percent error, append the result dict. -/
def approx_step (vin vout : ℚ) (resistors : List ℚ) (r1 : ℚ)
    (results : List DividerResult) (r2 : ℚ) : Except PyError (List DividerResult) := do
  let r2_closest := snapToNearest resistors r2
  let vout_closest ← pydiv (vin * r2_closest) (r1 + r2_closest)
  let vout_error ← (pydiv (vout_closest - vout) vout).map (fun q => q * 100)
  pure (results ++ [⟨r1, r2_closest, vout_closest, vout_error⟩])

/-- Body of the outer loop of `find_approximations`: run the whole inner
r2 loop for one r1 candidate. -/
def approx_outer_step (vin vout : ℚ) (r2_list resistors : List ℚ)
    (results : List DividerResult) (r1 : ℚ) : Except PyError (List DividerResult) :=
  r2_list.foldlM (approx_step vin vout resistors r1) results

/-- `find_approximations(vin, vout, r2_list, resistors)` from ohmoracle.py:
the full r1-outer, r2-inner cross-product loop. -/
def find_approximations (vin vout : ℚ) (r2_list resistors : List ℚ) :
    Except PyError (List DividerResult) :=
  resistors.foldlM (approx_outer_step vin vout r2_list resistors) []

/-- The DividerResult built for one (r1, r2) pair when no division fails. -/
def divider_entry (vin vout : ℚ) (resistors : List ℚ) (r1 r2 : ℚ) : DividerResult :=
  ⟨r1, snapToNearest resistors r2,
    vin * snapToNearest resistors r2 / (r1 + snapToNearest resistors r2),
    (vin * snapToNearest resistors r2 / (r1 + snapToNearest resistors r2) - vout) / vout * 100⟩

/-- Loop body of `find_closest_match`: replace the running best only when
the new result is strictly closer to the target vout. -/
def match_step (vout : ℚ) (closest_match result : DividerResult) : DividerResult :=
  if |closest_match.vout - vout| > |result.vout - vout| then result else closest_match

/-- `find_closest_match(vout, results)` from ohmoracle.py: starts from
`results[0]` (IndexError on an empty list) and scans the whole list. -/
def find_closest_match (vout : ℚ) (results : List DividerResult) :
    Except PyError DividerResult :=
  match results with
  | [] => .error .indexError
  | first :: rest => .ok ((first :: rest).foldl (match_step vout) first)

/-- The numeric pipeline run by the `__main__` block after argument
parsing: solver, approximator, selector. -/
def run_pipeline (vin vout : ℚ) (resistors : List ℚ) : Except PyError DividerResult := do
  let r2_list ← generate_r2_list vin vout resistors
  let results ← find_approximations vin vout r2_list resistors
  find_closest_match vout results

/-- SHORTHAND_MULTIPIERS from ohmoracle.py, in dict iteration order. -/
def SHORTHAND_MULTIPIERS : List (Char × ℚ) := [('K', 1000), ('M', 1000000)]

/-- Python `s.upper()` on an ASCII token, with the string as a char list. -/
def pyUpper (s : List Char) : List Char := s.map Char.toUpper

/-- Python `s.strip(c)` for a one-character argument: removes copies of
that character from both ends only, never from the interior. -/
def pyStripChar (c : Char) (s : List Char) : List Char :=
  ((s.dropWhile (fun a => a = c)).reverse.dropWhile (fun a => a = c)).reverse

/-- Python `s.replace(sub, empty, 1)` for a one-character `sub`: removes
the first occurrence. -/
def pyRemoveFirst (c : Char) : List Char → List Char
  | [] => []
  | x :: xs => if x = c then xs else x :: pyRemoveFirst c xs

/-- Python `s.isdigit()` on ASCII text: nonempty and all digits. -/
def pyIsDigit (s : List Char) : Bool :=
  !s.isEmpty && s.all Char.isDigit

/-- Value of an ASCII digit string. -/
def digitsVal (s : List Char) : ℕ :=
  s.foldl (fun n c => 10 * n + (c.toNat - 48)) 0

/-- Unsigned part of a Python float literal: digits with at most one
decimal point and at least one digit overall. -/
def pyParseUnsigned (s : List Char) : Option ℚ :=
  match s.splitOn '.' with
  | [ip] => if !ip.isEmpty && ip.all Char.isDigit then some (digitsVal ip) else none
  | [ip, fp] =>
      if (!ip.isEmpty || !fp.isEmpty) && ip.all Char.isDigit && fp.all Char.isDigit then
        some ((digitsVal ip : ℚ) + (digitsVal fp : ℚ) / (10 ^ fp.length))
      else none
  | _ => none

/-- Optional leading sign of a Python float literal. -/
def splitSign : List Char → Bool × List Char
  | '-' :: rest => (true, rest)
  | '+' :: rest => (false, rest)
  | s => (false, s)

/-- Python `float(text)` on the ASCII decimal fragment resistor tokens can
produce: optional sign, digits, at most one decimal point.  A text outside
this fragment raises ValueError, modelled as `none`.  (Exponents,
infinities, nan, underscores and surrounding whitespace do not occur in
resistor tokens and are not modelled.) -/
def pyfloat (s : List Char) : Option ℚ :=
  let p := splitSign s
  match pyParseUnsigned p.2 with
  | some q => some (if p.1 then -q else q)
  | none => none

/-- The f-string message `convert_value_shorthand` passes to `error()`. -/
def invalidValueMsg (value : List Char) : String :=
  String.mk value ++ " is not a valid resistor value! Only use numbers with optional shorthands for multiples (K and M)."

/-- The shorthand arm of `convert_value_shorthand`: strip the found
letter from the ends of the uppercased token and multiply the `float()`
of the rest by the letter's multiplier — an unparseable rest raises
ValueError. -/
def suffix_branch (value : List Char) (c : Char) (mult : ℚ) : Except PyError ℚ :=
  match pyfloat (pyStripChar c (pyUpper value)) with
  | some converted => .ok (converted * mult)
  | none => .error .valueError

/-- The no-shorthand tail of `convert_value_shorthand`: cast the token
with `float()` when it is all digits around at most one dot, else call
`error()`. -/
def plain_branch (value : List Char) : Except PyError ℚ :=
  if pyIsDigit (pyRemoveFirst '.' value) then
    match pyfloat value with
    | some converted => .ok converted
    | none => .error .valueError
  else .error (.errorExit (invalidValueMsg value))

/-- `convert_value_shorthand(value)` from ohmoracle.py: the first
shorthand letter found in the uppercased token (K before M, dict order)
selects the suffix branch; a token with no shorthand letter takes the
plain branch. -/
def convert_value_shorthand (value : List Char) : Except PyError ℚ :=
  match SHORTHAND_MULTIPIERS.find? (fun p => (pyUpper value).contains p.1) with
  | some p => suffix_branch value p.1 p.2
  | none => plain_branch value

/-- Observable behaviour of a terminating process: the lines it printed,
its exit status, and whether a traceback was printed. -/
structure ProcessExit where
  printedLines : List String
  exitCode : Nat
  stackTrace : Bool
deriving DecidableEq

/-- `error(message)` from ohmoracle.py: prints one line `error: ` followed
by the message, then calls `exit()`.  Python `exit()` with no argument
raises SystemExit(None), which terminates the process with status 0 and
prints no traceback. -/
def error (message : String) : ProcessExit :=
  ⟨["error: " ++ message], 0, false⟩

/-! ## Helper lemmas -/

/-- Invariant of the `closest_resistor` loop: the fold result is the
initial accumulator or a qualifying list element, never decreases the
accumulator, and dominates every qualifying list element. -/
theorem closest_foldl_spec (ohms : ℚ) (l : List ℚ) :
    ∀ acc : ℚ,
      (List.foldl (closestStep ohms) acc l = acc ∨
        (List.foldl (closestStep ohms) acc l ∈ l ∧
          List.foldl (closestStep ohms) acc l ≤ ohms)) ∧
      acc ≤ List.foldl (closestStep ohms) acc l ∧
      ∀ i ∈ l, i ≤ ohms → i ≤ List.foldl (closestStep ohms) acc l := by
  induction l with
  | nil => intro acc; simp
  | cons x xs ih =>
    intro acc
    rw [List.foldl_cons]
    obtain ⟨hmem, hle, hmin⟩ := ih (closestStep ohms acc x)
    by_cases h1 : x > ohms
    · have hs : closestStep ohms acc x = acc := by simp [closestStep, h1]
      rw [hs] at hmem hle hmin ⊢
      refine ⟨?_, hle, ?_⟩
      · rcases hmem with h | ⟨h, h2⟩
        · exact Or.inl h
        · exact Or.inr ⟨List.mem_cons_of_mem _ h, h2⟩
      · intro i hi hio
        rcases List.mem_cons.mp hi with rfl | hi2
        · exact absurd h1 (not_lt.mpr hio)
        · exact hmin i hi2 hio
    · by_cases h2 : ohms - acc > ohms - x
      · have hax : acc < x := by linarith
        have hxo : x ≤ ohms := not_lt.mp h1
        have hs : closestStep ohms acc x = x := by simp [closestStep, h1, h2]
        rw [hs] at hmem hle hmin ⊢
        refine ⟨?_, le_of_lt (lt_of_lt_of_le hax hle), ?_⟩
        · rcases hmem with h | ⟨h, h3⟩
          · exact Or.inr ⟨by rw [h]; exact List.mem_cons_self x xs,
              by rw [h]; exact hxo⟩
          · exact Or.inr ⟨List.mem_cons_of_mem _ h, h3⟩
        · intro i hi hio
          rcases List.mem_cons.mp hi with rfl | hi2
          · exact hle
          · exact hmin i hi2 hio
      · have hxa : x ≤ acc := by linarith
        have hs : closestStep ohms acc x = acc := by simp [closestStep, h1, h2]
        rw [hs] at hmem hle hmin ⊢
        refine ⟨?_, hle, ?_⟩
        · rcases hmem with h | ⟨h, h3⟩
          · exact Or.inl h
          · exact Or.inr ⟨List.mem_cons_of_mem _ h, h3⟩
        · intro i hi hio
          rcases List.mem_cons.mp hi with rfl | hi2
          · exact le_trans hxa hle
          · exact hmin i hi2 hio

/-- Top-level consequence for `closest_resistor`: the result is 0 or a
qualifying candidate, is nonnegative, and dominates every candidate that
is at most `ohms`. -/
theorem closest_resistor_spec (resistors : List ℚ) (ohms : ℚ) :
    (closest_resistor resistors ohms = 0 ∨
      (closest_resistor resistors ohms ∈ resistors ∧
        closest_resistor resistors ohms ≤ ohms)) ∧
    0 ≤ closest_resistor resistors ohms ∧
    ∀ i ∈ resistors, i ≤ ohms → i ≤ closest_resistor resistors ohms :=
  closest_foldl_spec ohms resistors 0

/-- The snapped value is never negative. -/
theorem snapToNearest_nonneg (resistors : List ℚ) (t : ℚ) :
    0 ≤ snapToNearest resistors t :=
  (closest_resistor_spec resistors _).2.1

/-- For a positive bound, lying at or below Python `int()` truncation is
the same as lying at or below the floor. -/
theorem le_pyint_iff (r t : ℚ) (hr : 0 < r) :
    r ≤ ((pyint t : ℤ) : ℚ) ↔ r ≤ ((⌊t⌋ : ℤ) : ℚ) := by
  unfold pyint
  by_cases h : 0 ≤ t
  · rw [if_pos h]
  · rw [if_neg h]
    push_neg at h
    have hceil : ⌈t⌉ ≤ 0 := Int.ceil_le.mpr (by exact_mod_cast h.le)
    have hfloor : ((⌊t⌋ : ℤ) : ℚ) ≤ t := Int.floor_le t
    constructor
    · intro hle
      exfalso
      have hr0 : r ≤ 0 := le_trans hle (by exact_mod_cast hceil)
      linarith
    · intro hle
      exfalso
      have hrt : r ≤ t := le_trans hle hfloor
      linarith

/-! ## Claim theorems -/

/-- C1: on positive candidate lists, the approximator's snap
(`closest_resistor` applied to the int-truncated target) returns the
largest candidate at or below the floor of the target — whenever some
candidate lies at or below it, the result is a member of the candidate
list, is at most the floored target, and no candidate at most the floored
target exceeds it; when no candidate qualifies the result is the
sentinel 0. -/
theorem snapToNearest_largest_le (resistors : List ℚ) (t : ℚ)
    (hpos : ∀ r ∈ resistors, 0 < r) :
    ((∃ r ∈ resistors, r ≤ ((⌊t⌋ : ℤ) : ℚ)) →
      snapToNearest resistors t ∈ resistors ∧
      snapToNearest resistors t ≤ ((⌊t⌋ : ℤ) : ℚ) ∧
      ∀ r ∈ resistors, r ≤ ((⌊t⌋ : ℤ) : ℚ) → r ≤ snapToNearest resistors t) ∧
    ((∀ r ∈ resistors, ¬ r ≤ ((⌊t⌋ : ℤ) : ℚ)) → snapToNearest resistors t = 0) := by
  simp only [snapToNearest]
  obtain ⟨hmem, hnn, hmax⟩ := closest_resistor_spec resistors ((pyint t : ℤ) : ℚ)
  constructor
  · rintro ⟨r0, hr0, hr0le⟩
    have hr0pos := hpos r0 hr0
    have hr0c : r0 ≤ ((pyint t : ℤ) : ℚ) := (le_pyint_iff r0 t hr0pos).mpr hr0le
    have hr0snap := hmax r0 hr0 hr0c
    have hsnappos : 0 < closest_resistor resistors ((pyint t : ℤ) : ℚ) :=
      lt_of_lt_of_le hr0pos hr0snap
    rcases hmem with h0 | ⟨hin, hlec⟩
    · rw [h0] at hsnappos
      exact absurd hsnappos (lt_irrefl 0)
    · refine ⟨hin, (le_pyint_iff _ t (hpos _ hin)).mp hlec, ?_⟩
      intro r hr hrle
      exact hmax r hr ((le_pyint_iff r t (hpos r hr)).mpr hrle)
  · intro hnone
    rcases hmem with h0 | ⟨hin, hlec⟩
    · exact h0
    · exact absurd ((le_pyint_iff _ t (hpos _ hin)).mp hlec) (hnone _ hin)

/-- Witness for C1 at candidates [10, 22, 47] and target 51/2. -/
theorem snapToNearest_largest_le_witness :
    (∀ r ∈ [(10 : ℚ), 22, 47], 0 < r) ∧
    (((∃ r ∈ [(10 : ℚ), 22, 47], r ≤ ((⌊(51 / 2 : ℚ)⌋ : ℤ) : ℚ)) →
      snapToNearest [(10 : ℚ), 22, 47] (51 / 2) ∈ [(10 : ℚ), 22, 47] ∧
      snapToNearest [(10 : ℚ), 22, 47] (51 / 2) ≤ ((⌊(51 / 2 : ℚ)⌋ : ℤ) : ℚ) ∧
      ∀ r ∈ [(10 : ℚ), 22, 47], r ≤ ((⌊(51 / 2 : ℚ)⌋ : ℤ) : ℚ) →
        r ≤ snapToNearest [(10 : ℚ), 22, 47] (51 / 2)) ∧
    ((∀ r ∈ [(10 : ℚ), 22, 47], ¬ r ≤ ((⌊(51 / 2 : ℚ)⌋ : ℤ) : ℚ)) →
      snapToNearest [(10 : ℚ), 22, 47] (51 / 2) = 0)) :=
  ⟨by decide, snapToNearest_largest_le [10, 22, 47] (51 / 2) (by decide)⟩

/-- The solver loop of `generate_r2_list` never fails once `vin - vout` is
nonzero, and appends one solved r2 per candidate, in order. -/
theorem r2_foldlM_ok (vin vout : ℚ) (h : vin - vout ≠ 0) (l : List ℚ) :
    ∀ init : List ℚ,
      List.foldlM (r2_step vin vout) init l =
        .ok (init ++ l.map (fun r1 => vin * r1 / (vin - vout))) := by
  induction l with
  | nil =>
    intro init
    rw [List.foldlM_nil, List.map_nil, List.append_nil]
    rfl
  | cons x xs ih =>
    intro init
    rw [List.foldlM_cons]
    have hx : r2_step vin vout init x = .ok (init ++ [vin * x / (vin - vout)]) := by
      simp [r2_step, pydiv, h, Except.map]
    rw [hx]
    show List.foldlM (r2_step vin vout) (init ++ [vin * x / (vin - vout)]) xs = _
    rw [ih, List.append_assoc]
    rfl

/-- C4: for vout < vin, `generate_r2_list` succeeds and maps every r1
candidate to `(vin * r1) / (vin - vout)`, preserving length and order; at
vin = 5, vout = 33/10, r1 = 10000 the solved value is within 1/100 of
2941176/100. -/
theorem generate_r2_list_spec (vin vout : ℚ) (l : List ℚ) (h : vout < vin) :
    generate_r2_list vin vout l =
      .ok (l.map (fun r1 => vin * r1 / (vin - vout))) ∧
    (l.map (fun r1 => vin * r1 / (vin - vout))).length = l.length ∧
    generate_r2_list 5 (33 / 10) [10000] = .ok [5 * 10000 / (5 - 33 / 10)] ∧
    |5 * 10000 / (5 - 33 / 10) - 2941176 / 100| < (1 : ℚ) / 100 := by
  have hne : vin ≠ vout := ne_of_gt h
  have hsub : vin - vout ≠ 0 := sub_ne_zero.mpr hne
  refine ⟨?_, List.length_map _ _, ?_, by rw [abs_sub_lt_iff]; norm_num⟩
  · rw [generate_r2_list, if_neg hne, if_neg (not_lt.mpr h.le)]
    simpa using r2_foldlM_ok vin vout hsub l []
  · rw [generate_r2_list, if_neg (by norm_num : (5 : ℚ) ≠ 33 / 10),
      if_neg (by norm_num : ¬ (5 : ℚ) < 33 / 10)]
    simpa using r2_foldlM_ok 5 (33 / 10) (by norm_num) [10000] []

/-- Witness for C4 at vin = 5, vout = 33/10, candidates [10000]. -/
theorem generate_r2_list_spec_witness :
    ((33 / 10 : ℚ) < 5) ∧
    (generate_r2_list 5 (33 / 10) [(10000 : ℚ)] =
        .ok ([(10000 : ℚ)].map (fun r1 => 5 * r1 / (5 - 33 / 10))) ∧
      ([(10000 : ℚ)].map (fun r1 => 5 * r1 / (5 - 33 / 10))).length =
        [(10000 : ℚ)].length ∧
      generate_r2_list 5 (33 / 10) [10000] = .ok [5 * 10000 / (5 - 33 / 10)] ∧
      |5 * 10000 / (5 - 33 / 10) - 2941176 / 100| < (1 : ℚ) / 100) :=
  ⟨by norm_num, generate_r2_list_spec 5 (33 / 10) [(10000 : ℚ)] (by norm_num)⟩

/-- C5: when vin equals vout or vin is below vout, the pipeline stops in
`generate_r2_list` with the corresponding `error()` exit (so no
DividerResult is ever produced, the whole run returning that error), and
when vin exceeds vout no such failure occurs: the solver succeeds and its
divisor `vin - vout` is strictly positive. -/
theorem pipeline_voltage_guard (vin vout : ℚ) (l : List ℚ) :
    (vin = vout →
      generate_r2_list vin vout l = .error (.errorExit vinEqMsg) ∧
      run_pipeline vin vout l = .error (.errorExit vinEqMsg)) ∧
    (vin < vout →
      generate_r2_list vin vout l = .error (.errorExit vinLtMsg) ∧
      run_pipeline vin vout l = .error (.errorExit vinLtMsg)) ∧
    (vout < vin →
      0 < vin - vout ∧
      generate_r2_list vin vout l =
        .ok (l.map (fun r1 => vin * r1 / (vin - vout)))) := by
  refine ⟨?_, ?_, ?_⟩
  · intro h
    have hg : generate_r2_list vin vout l = .error (.errorExit vinEqMsg) := by
      rw [generate_r2_list, if_pos h]
    refine ⟨hg, ?_⟩
    rw [run_pipeline, hg]
    rfl
  · intro h
    have hg : generate_r2_list vin vout l = .error (.errorExit vinLtMsg) := by
      rw [generate_r2_list, if_neg (ne_of_lt h), if_pos h]
    refine ⟨hg, ?_⟩
    rw [run_pipeline, hg]
    rfl
  · intro h
    refine ⟨sub_pos.mpr h, ?_⟩
    rw [generate_r2_list, if_neg (ne_of_gt h), if_neg (not_lt.mpr h.le)]
    simpa using r2_foldlM_ok vin vout (sub_ne_zero.mpr (ne_of_gt h)) l []

/-- Witness for C5 at (5, 5), (3, 5) and (5, 3) with candidates [10]. -/
theorem pipeline_voltage_guard_witness :
    (generate_r2_list 5 5 [(10 : ℚ)] = .error (.errorExit vinEqMsg) ∧
      run_pipeline 5 5 [(10 : ℚ)] = .error (.errorExit vinEqMsg)) ∧
    (generate_r2_list 3 5 [(10 : ℚ)] = .error (.errorExit vinLtMsg) ∧
      run_pipeline 3 5 [(10 : ℚ)] = .error (.errorExit vinLtMsg)) ∧
    (0 < (5 : ℚ) - 3 ∧
      generate_r2_list 5 3 [(10 : ℚ)] =
        .ok ([(10 : ℚ)].map (fun r1 => 5 * r1 / (5 - 3)))) :=
  ⟨(pipeline_voltage_guard 5 5 [(10 : ℚ)]).1 rfl,
   (pipeline_voltage_guard 3 5 [(10 : ℚ)]).2.1 (by norm_num),
   (pipeline_voltage_guard 5 3 [(10 : ℚ)]).2.2 (by norm_num)⟩

/-- The inner r2 loop of `find_approximations` never fails when the
target vout is nonzero and the current r1 is positive; it appends one
`divider_entry` per ideal r2, in order. -/
theorem approx_inner_ok (vin vout : ℚ) (rs : List ℚ) (r1 : ℚ)
    (hvout : vout ≠ 0) (hr1 : 0 < r1) (r2s : List ℚ) :
    ∀ init : List DividerResult,
      List.foldlM (approx_step vin vout rs r1) init r2s =
        .ok (init ++ r2s.map (divider_entry vin vout rs r1)) := by
  induction r2s with
  | nil =>
    intro init
    rw [List.foldlM_nil, List.map_nil, List.append_nil]
    rfl
  | cons x xs ih =>
    intro init
    have hden : r1 + snapToNearest rs x ≠ 0 :=
      ne_of_gt (lt_of_lt_of_le hr1 (le_add_of_nonneg_right (snapToNearest_nonneg rs x)))
    rw [List.foldlM_cons]
    have hx : approx_step vin vout rs r1 init x =
        .ok (init ++ [divider_entry vin vout rs r1 x]) := by
      simp only [approx_step, pydiv, if_neg hden, if_neg hvout, divider_entry]
      rfl
    rw [hx]
    show List.foldlM (approx_step vin vout rs r1)
      (init ++ [divider_entry vin vout rs r1 x]) xs = _
    rw [ih, List.append_assoc]
    rfl

/-- The outer r1 loop of `find_approximations` builds the flattened cross
product of r1 candidates with the mapped inner loop. -/
theorem approx_outer_ok (vin vout : ℚ) (rs r2s : List ℚ) (hvout : vout ≠ 0) :
    ∀ l : List ℚ, (∀ r ∈ l, 0 < r) → ∀ init : List DividerResult,
      List.foldlM (approx_outer_step vin vout r2s rs) init l =
        .ok (init ++ l.flatMap (fun r1 => r2s.map (divider_entry vin vout rs r1))) := by
  intro l
  induction l with
  | nil =>
    intro _ init
    rw [List.foldlM_nil, List.flatMap_nil, List.append_nil]
    rfl
  | cons x xs ih =>
    intro hpos init
    rw [List.foldlM_cons]
    have hx : approx_outer_step vin vout r2s rs init x =
        .ok (init ++ r2s.map (divider_entry vin vout rs x)) :=
      approx_inner_ok vin vout rs x hvout (hpos x (List.mem_cons_self x xs)) r2s init
    rw [hx]
    show List.foldlM (approx_outer_step vin vout r2s rs)
      (init ++ r2s.map (divider_entry vin vout rs x)) xs = _
    rw [ih (fun r hr => hpos r (List.mem_cons_of_mem _ hr)), List.flatMap_cons,
      List.append_assoc]

/-- Length of the flattened cross product with constant block size. -/
theorem flatMap_map_length (rs r2s : List ℚ) (f : ℚ → ℚ → DividerResult) :
    (rs.flatMap (fun r1 => r2s.map (f r1))).length = rs.length * r2s.length := by
  induction rs with
  | nil => simp
  | cons x xs ih =>
    rw [List.flatMap_cons, List.length_append, List.length_map, ih]
    simp [Nat.succ_mul, Nat.add_comm]

/-- Indexing the flattened cross product: the entry at `i * n + j` is the
entry built from the i-th r1 and the j-th r2. -/
theorem flatMap_map_getElem (rs r2s : List ℚ) (f : ℚ → ℚ → DividerResult) :
    ∀ i j, (hi : i < rs.length) → (hj : j < r2s.length) →
      (rs.flatMap (fun r1 => r2s.map (f r1)))[i * r2s.length + j]? =
        some (f rs[i] r2s[j]) := by
  induction rs with
  | nil => intro i j hi _; exact absurd hi (Nat.not_lt_zero i)
  | cons x xs ih =>
    intro i j hi hj
    rw [List.flatMap_cons]
    cases i with
    | zero =>
      rw [Nat.zero_mul, Nat.zero_add, List.getElem?_append, if_pos (by simpa using hj),
        List.getElem?_map, List.getElem?_eq_getElem hj]
      rfl
    | succ k =>
      have hlen : (r2s.map (f x)).length = r2s.length := List.length_map _ _
      have hge : (r2s.map (f x)).length ≤ (k + 1) * r2s.length + j := by
        rw [hlen, Nat.succ_mul]
        omega
      rw [List.getElem?_append_right hge]
      have hidx : (k + 1) * r2s.length + j - (r2s.map (f x)).length =
          k * r2s.length + j := by
        rw [hlen, Nat.succ_mul]
        omega
      rw [hidx, ih k j (by simpa using Nat.lt_of_succ_lt_succ (by simpa using hi)) hj]
      rfl

/-- C2: for any vin, nonzero target vout, ideal-r2 list and positive
candidate list, `find_approximations` succeeds and emits exactly
|candidates| * |idealR2List| results — the full cross product in r1-outer,
r2-inner order — where the entry at index `i * |idealR2List| + j` carries
r1 = candidates i, r2 = the snapped ideal r2 j, achieved
vout = vin * r2 / (r1 + r2) and percent error
= (achieved - target) / target * 100. -/
theorem find_approximations_cross_product (vin vout : ℚ) (r2s rs : List ℚ)
    (hvout : vout ≠ 0) (hpos : ∀ r ∈ rs, 0 < r) :
    ∃ L : List DividerResult,
      find_approximations vin vout r2s rs = .ok L ∧
      L.length = rs.length * r2s.length ∧
      ∀ i j, (hi : i < rs.length) → (hj : j < r2s.length) →
        L[i * r2s.length + j]? =
          some ⟨rs[i], snapToNearest rs r2s[j],
            vin * snapToNearest rs r2s[j] / (rs[i] + snapToNearest rs r2s[j]),
            (vin * snapToNearest rs r2s[j] / (rs[i] + snapToNearest rs r2s[j]) - vout)
              / vout * 100⟩ := by
  refine ⟨rs.flatMap (fun r1 => r2s.map (divider_entry vin vout rs r1)), ?_, ?_, ?_⟩
  · have h := approx_outer_ok vin vout rs r2s hvout rs hpos []
    rw [find_approximations, h, List.nil_append]
  · exact flatMap_map_length rs r2s _
  · intro i j hi hj
    rw [flatMap_map_getElem rs r2s _ i j hi hj]
    rfl

/-- Witness for C2 at vin = 5, vout = 33/10, ideal r2 list [25, 40] and
candidates [10, 22]. -/
theorem find_approximations_cross_product_witness :
    ((33 / 10 : ℚ) ≠ 0) ∧ (∀ r ∈ [(10 : ℚ), 22], 0 < r) ∧
    ∃ L : List DividerResult,
      find_approximations 5 (33 / 10) [(25 : ℚ), 40] [(10 : ℚ), 22] = .ok L ∧
      L.length = [(10 : ℚ), 22].length * [(25 : ℚ), 40].length ∧
      ∀ i j, (hi : i < [(10 : ℚ), 22].length) → (hj : j < [(25 : ℚ), 40].length) →
        L[i * [(25 : ℚ), 40].length + j]? =
          some ⟨[(10 : ℚ), 22][i], snapToNearest [(10 : ℚ), 22] [(25 : ℚ), 40][j],
            5 * snapToNearest [(10 : ℚ), 22] [(25 : ℚ), 40][j] /
              ([(10 : ℚ), 22][i] + snapToNearest [(10 : ℚ), 22] [(25 : ℚ), 40][j]),
            (5 * snapToNearest [(10 : ℚ), 22] [(25 : ℚ), 40][j] /
              ([(10 : ℚ), 22][i] + snapToNearest [(10 : ℚ), 22] [(25 : ℚ), 40][j]) - 33 / 10)
              / (33 / 10) * 100⟩ :=
  ⟨by norm_num, by decide,
    find_approximations_cross_product 5 (33 / 10) [(25 : ℚ), 40] [(10 : ℚ), 22]
      (by norm_num) (by decide)⟩

/-- Shared argument: with a zero target vout, the first percent-error
division of the approximation loop divides by zero and the whole loop
stops with ZeroDivisionError. -/
theorem vout_zero_zde (vin : ℚ) (r2s rs : List ℚ)
    (h2 : r2s ≠ []) (hrs : rs ≠ []) (hpos : ∀ r ∈ rs, 0 < r) :
    find_approximations vin 0 r2s rs = .error .zeroDivisionError := by
  obtain ⟨r, rs', rfl⟩ := List.exists_cons_of_ne_nil hrs
  obtain ⟨x, xs, rfl⟩ := List.exists_cons_of_ne_nil h2
  have hr : 0 < r := hpos r (List.mem_cons_self r rs')
  have hden : r + snapToNearest (r :: rs') x ≠ 0 :=
    ne_of_gt (lt_of_lt_of_le hr (le_add_of_nonneg_right (snapToNearest_nonneg _ x)))
  rw [find_approximations, List.foldlM_cons]
  have hfail : approx_outer_step vin 0 (x :: xs) (r :: rs') [] r =
      .error .zeroDivisionError := by
    rw [approx_outer_step, List.foldlM_cons]
    have hstep : approx_step vin 0 (r :: rs') r [] x = .error .zeroDivisionError := by
      simp only [approx_step, pydiv, if_neg hden]
      rfl
    rw [hstep]
    rfl
  rw [hfail]
  rfl

/-- C9 counterexample: with a zero target vout the percent-error division
is not guarded — at vin = 5, ideal r2 list [10] and candidates [10] the
approximator raises an unhandled ZeroDivisionError instead of taking any
descriptive `error()` path or producing a defined value. -/
theorem find_approximations_vout_zero_cex :
    find_approximations 5 0 [(10 : ℚ)] [(10 : ℚ)] = .error .zeroDivisionError :=
  vout_zero_zde 5 [(10 : ℚ)] [(10 : ℚ)] (by decide) (by decide) (by decide)

/-- C9 amended: whenever the target vout is zero and the approximation
stage actually runs (nonempty positive candidates, nonempty ideal-r2
list), `find_approximations` stops at the first percent-error computation
with an unhandled ZeroDivisionError. -/
theorem find_approximations_vout_zero_raises (vin : ℚ) (r2s rs : List ℚ)
    (h2 : r2s ≠ []) (hrs : rs ≠ []) (hpos : ∀ r ∈ rs, 0 < r) :
    find_approximations vin 0 r2s rs = .error .zeroDivisionError :=
  vout_zero_zde vin r2s rs h2 hrs hpos

/-- Witness for the amended C9 at vin = 3, ideal r2 [20], candidates [15]. -/
theorem find_approximations_vout_zero_raises_witness :
    ([(20 : ℚ)] ≠ ([] : List ℚ)) ∧ ([(15 : ℚ)] ≠ ([] : List ℚ)) ∧
    (∀ r ∈ [(15 : ℚ)], 0 < r) ∧
    find_approximations 3 0 [(20 : ℚ)] [(15 : ℚ)] = .error .zeroDivisionError :=
  ⟨by decide, by decide, by decide,
    find_approximations_vout_zero_raises 3 [(20 : ℚ)] [(15 : ℚ)]
      (by decide) (by decide) (by decide)⟩

/-- Invariant of the `find_closest_match` loop: the fold result is at
least as close to the target as the initial accumulator and as every list
element; and it is either the initial accumulator or a list element that
is strictly closer than the accumulator and than every element strictly
before it (ties never displace the running best). -/
theorem match_foldl_spec (t : ℚ) (l : List DividerResult) :
    ∀ a : DividerResult,
      (∀ x ∈ l, |(List.foldl (match_step t) a l).vout - t| ≤ |x.vout - t|) ∧
      |(List.foldl (match_step t) a l).vout - t| ≤ |a.vout - t| ∧
      (List.foldl (match_step t) a l = a ∨
        ∃ i, ∃ hi : i < l.length,
          List.foldl (match_step t) a l = l[i] ∧
          |(List.foldl (match_step t) a l).vout - t| < |a.vout - t| ∧
          ∀ j, (hj : j < l.length) → j < i →
            |(List.foldl (match_step t) a l).vout - t| < |l[j].vout - t|) := by
  induction l with
  | nil => intro a; simp
  | cons x xs ih =>
    intro a
    rw [List.foldl_cons]
    obtain ⟨ihmin, ihle, ihcase⟩ := ih (match_step t a x)
    by_cases h : |a.vout - t| > |x.vout - t|
    · have hs : match_step t a x = x := by simp [match_step, h]
      rw [hs] at ihmin ihle ihcase ⊢
      refine ⟨?_, le_trans ihle (le_of_lt h), ?_⟩
      · intro y hy
        rcases List.mem_cons.mp hy with rfl | hy2
        · exact ihle
        · exact ihmin y hy2
      · rcases ihcase with hm | ⟨i, hi, hmi, hlt, hpre⟩
        · refine Or.inr ⟨0, by simp, by simpa using hm, lt_of_le_of_lt ihle h, ?_⟩
          intro j hj hj0
          exact absurd hj0 (Nat.not_lt_zero j)
        · refine Or.inr ⟨i + 1, Nat.succ_lt_succ hi, by simpa using hmi,
            lt_trans hlt h, ?_⟩
          intro j hj hjlt
          cases j with
          | zero => simpa using hlt
          | succ k =>
            have hk : k < xs.length := by simpa using Nat.lt_of_succ_lt_succ hj
            have := hpre k hk (Nat.lt_of_succ_lt_succ hjlt)
            simpa using this
    · have hs : match_step t a x = a := by simp [match_step, h]
      rw [hs] at ihmin ihle ihcase ⊢
      refine ⟨?_, ihle, ?_⟩
      · intro y hy
        rcases List.mem_cons.mp hy with rfl | hy2
        · exact le_trans ihle (not_lt.mp h)
        · exact ihmin y hy2
      · rcases ihcase with hm | ⟨i, hi, hmi, hlt, hpre⟩
        · exact Or.inl hm
        · refine Or.inr ⟨i + 1, Nat.succ_lt_succ hi, by simpa using hmi, hlt, ?_⟩
          intro j hj hjlt
          cases j with
          | zero =>
            have := lt_of_lt_of_le hlt (not_lt.mp h)
            simpa using this
          | succ k =>
            have hk : k < xs.length := by simpa using Nat.lt_of_succ_lt_succ hj
            have := hpre k hk (Nat.lt_of_succ_lt_succ hjlt)
            simpa using this

/-- C3: on a non-empty result list `find_closest_match` returns the entry
minimizing the absolute distance of its achieved vout to the target, and
among tied minimizers it returns the first-encountered one in generation
order: the returned entry sits at an index every strictly earlier index
beats strictly in distance, and no index beats it at all. -/
theorem find_closest_match_min_first (t : ℚ) (results : List DividerResult)
    (hne : results ≠ []) :
    ∃ m : DividerResult, find_closest_match t results = .ok m ∧
      ∃ i, ∃ hi : i < results.length,
        m = results[i] ∧
        (∀ j, (hj : j < results.length) → |m.vout - t| ≤ |results[j].vout - t|) ∧
        ∀ j, (hj : j < results.length) → j < i →
          |m.vout - t| < |results[j].vout - t| := by
  obtain ⟨first, rest, rfl⟩ := List.exists_cons_of_ne_nil hne
  refine ⟨(first :: rest).foldl (match_step t) first, rfl, ?_⟩
  obtain ⟨hmin, hle, hcase⟩ := match_foldl_spec t (first :: rest) first
  rcases hcase with hm | ⟨i, hi, hmi, hlt, hpre⟩
  · refine ⟨0, Nat.succ_pos _, by simpa using hm, ?_, ?_⟩
    · intro j hj
      exact hmin _ (List.getElem_mem hj)
    · intro j hj hj0
      exact absurd hj0 (Nat.not_lt_zero j)
  · refine ⟨i, hi, hmi, ?_, hpre⟩
    intro j hj
    exact hmin _ (List.getElem_mem hj)

/-- Witness for C3 at target 3 and three concrete results whose achieved
vouts are 5, 3 and 3 (a tie between the last two). -/
theorem find_closest_match_min_first_witness :
    ([⟨1, 1, 5, 0⟩, ⟨2, 2, 3, 0⟩, ⟨3, 3, 3, 0⟩] ≠ ([] : List DividerResult)) ∧
    ∃ m : DividerResult,
      find_closest_match 3 [⟨1, 1, 5, 0⟩, ⟨2, 2, 3, 0⟩, ⟨3, 3, 3, 0⟩] = .ok m ∧
      ∃ i, ∃ hi : i < ([⟨1, 1, 5, 0⟩, ⟨2, 2, 3, 0⟩, ⟨3, 3, 3, 0⟩] :
          List DividerResult).length,
        m = ([⟨1, 1, 5, 0⟩, ⟨2, 2, 3, 0⟩, ⟨3, 3, 3, 0⟩] : List DividerResult)[i] ∧
        (∀ j, (hj : j < ([⟨1, 1, 5, 0⟩, ⟨2, 2, 3, 0⟩, ⟨3, 3, 3, 0⟩] :
            List DividerResult).length) →
          |m.vout - 3| ≤
            |(([⟨1, 1, 5, 0⟩, ⟨2, 2, 3, 0⟩, ⟨3, 3, 3, 0⟩] :
              List DividerResult)[j]).vout - 3|) ∧
        ∀ j, (hj : j < ([⟨1, 1, 5, 0⟩, ⟨2, 2, 3, 0⟩, ⟨3, 3, 3, 0⟩] :
            List DividerResult).length) → j < i →
          |m.vout - 3| <
            |(([⟨1, 1, 5, 0⟩, ⟨2, 2, 3, 0⟩, ⟨3, 3, 3, 0⟩] :
              List DividerResult)[j]).vout - 3| :=
  ⟨by decide,
    find_closest_match_min_first 3 [⟨1, 1, 5, 0⟩, ⟨2, 2, 3, 0⟩, ⟨3, 3, 3, 0⟩]
      (by decide)⟩

/-- C7: the reference examples of the token parser — 2.2K parses to
2200.0, 1M to 1000000.0, 47 to 47.0, while -5 and abc both fail through
the `error()` InvalidValueError path with its message. -/
theorem convert_value_shorthand_examples :
    convert_value_shorthand ['2', '.', '2', 'K'] = .ok 2200 ∧
    convert_value_shorthand ['1', 'M'] = .ok 1000000 ∧
    convert_value_shorthand ['4', '7'] = .ok 47 ∧
    convert_value_shorthand ['-', '5'] =
      .error (.errorExit (invalidValueMsg ['-', '5'])) ∧
    convert_value_shorthand ['a', 'b', 'c'] =
      .error (.errorExit (invalidValueMsg ['a', 'b', 'c'])) := by
  refine ⟨?_, ?_, ?_, rfl, rfl⟩
  · have h : convert_value_shorthand ['2', '.', '2', 'K'] =
        .ok ((((2 : ℕ) : ℚ) + ((2 : ℕ) : ℚ) / 10 ^ 1) * 1000) := rfl
    rw [h]
    simp only [Except.ok.injEq]
    norm_num
  · have h : convert_value_shorthand ['1', 'M'] =
        .ok (((1 : ℕ) : ℚ) * 1000000) := rfl
    rw [h]
    simp only [Except.ok.injEq]
    norm_num
  · have h : convert_value_shorthand ['4', '7'] = .ok ((47 : ℕ) : ℚ) := rfl
    rw [h]
    simp only [Except.ok.injEq]
    norm_num

/-- C6 counterexample: the token -5K carries the recognized suffix K and a
negative numeric remainder, yet `convert_value_shorthand` does not fail
with the `error()` InvalidValueError path — it returns the negative
magnitude -5000. -/
theorem convert_value_shorthand_neg_suffix_cex :
    convert_value_shorthand ['-', '5', 'K'] = .ok (-5000) ∧ (-5000 : ℚ) < 0 := by
  refine ⟨?_, by norm_num⟩
  have h : convert_value_shorthand ['-', '5', 'K'] =
      .ok (-((5 : ℕ) : ℚ) * 1000) := rfl
  rw [h]
  simp only [Except.ok.injEq]
  norm_num

/-- C6 amended: when the uppercased token contains a recognized shorthand
letter, `convert_value_shorthand` strips that letter only from the ends
and returns `float()` of the remainder times the multiplier with no
non-negativity check, so a parseable negative remainder yields a negative
magnitude instead of an InvalidValueError failure. -/
theorem convert_value_shorthand_suffix_no_sign_check (value : List Char)
    (c : Char) (mult x : ℚ)
    (hfind : SHORTHAND_MULTIPIERS.find? (fun p => (pyUpper value).contains p.1) =
      some (c, mult))
    (hfloat : pyfloat (pyStripChar c (pyUpper value)) = some x) :
    convert_value_shorthand value = .ok (x * mult) := by
  rw [convert_value_shorthand, hfind]
  show suffix_branch value c mult = .ok (x * mult)
  rw [suffix_branch, hfloat]

/-- Witness for the amended C6 at the token -5K. -/
theorem convert_value_shorthand_suffix_no_sign_check_witness :
    (SHORTHAND_MULTIPIERS.find?
      (fun p => (pyUpper ['-', '5', 'K']).contains p.1) = some ('K', 1000)) ∧
    (pyfloat (pyStripChar 'K' (pyUpper ['-', '5', 'K'])) = some (-((5 : ℕ) : ℚ))) ∧
    convert_value_shorthand ['-', '5', 'K'] = .ok (-((5 : ℕ) : ℚ) * 1000) :=
  ⟨rfl, rfl,
    convert_value_shorthand_suffix_no_sign_check ['-', '5', 'K'] 'K' 1000
      (-((5 : ℕ) : ℚ)) rfl rfl⟩

/-- C10: a token with the shorthand letter in its interior, such as 4K7,
takes the suffix branch, which strips the letter only from the ends,
leaves the interior letter for `float()`, and raises an unhandled
ValueError — it neither returns a value nor reaches the `error()`
InvalidValueError path. -/
theorem convert_value_shorthand_interior_suffix :
    ('K' ∈ ['4', 'K', '7']) ∧
    ['4', 'K', '7'].head? ≠ some 'K' ∧
    ['4', 'K', '7'].getLast? ≠ some 'K' ∧
    convert_value_shorthand ['4', 'K', '7'] = .error .valueError :=
  ⟨by decide, by decide, by decide, rfl⟩

/-- C8 counterexample: the `error()` helper terminates through Python
`exit()` with no argument, that is with exit status 0 — a success status,
not the non-zero-equivalent abnormal status the claim requires. -/
theorem error_exit_status_cex : (error vinEqMsg).exitCode = 0 := rfl

/-- C8 amended: on a validation or parsing failure the program prints the
single line `error: ` followed by the message, with no stack trace and no
partial result output, but terminates with exit status 0 (Python `exit()`
with no argument raises SystemExit(None)), not a non-zero-equivalent
abnormal status. -/
theorem error_prints_and_exits (message : String) :
    (error message).printedLines = ["error: " ++ message] ∧
    (error message).stackTrace = false ∧
    (error message).exitCode = 0 :=
  ⟨rfl, rfl, rfl⟩

end OhmOracle
